import Mathlib

/-!
Verification of the `binser` decode core (src/binser/src/decode.rs).

The Rust code is embedded shallowly:
* a byte buffer is a `List Nat` (each entry one byte);
* `Reader` carries the borrowed buffer and the cursor `offset`;
* a `Decode` implementation is a state-passing function
  `Reader → Except Error α × Reader` mirroring
  `fn decode(reader: &mut Reader) -> Result<Self, Error>`:
  the returned `Reader` is the post-state of the `&mut` borrow,
  on failure as well as on success;
* the numeric `impl_decode_number!` instances are `decodeUN w`
  (unsigned, little-endian, `w` bytes) and `decodeIN w` (signed,
  two's complement little-endian, `w` bytes); `f32`/`f64` are
  represented by their IEEE-754 bit patterns (`from_le_bytes` on a
  float only reassembles the bytes into the bit pattern);
* the `impl_decode_array!` instances are `decodeArray d n`.
-/

/-- Modelled from the spec: the error enum of `src/binser/src/error.rs`
(the file itself is not under src/); §7 of the spec gives exactly one
kind, `Overflow`, and `decode.rs` constructs only `Error::Overflow`. -/
inductive Error where
  | Overflow
  deriving DecidableEq, Repr

/-- `Reader<'a>`: a borrowed byte buffer `data` plus a cursor `offset`. -/
structure Reader where
  data : List Nat
  offset : Nat
  deriving DecidableEq, Repr

/-- `Reader::new`: cursor starts at 0. -/
def Reader.new (data : List Nat) : Reader :=
  { data := data, offset := 0 }

/-- `Reader::read_bytes(&mut self, buffer: &mut [u8])`.
The `&mut [u8]` destination is the `List Nat` argument; the result
triple is (the `Result<(), Error>` return value, the destination's
contents after the call, the reader after the call).  The bound check
`self.data.len() - self.offset < buffer.len()` precedes the copy, so on
failure both the destination and the reader are returned unchanged. -/
def Reader.read_bytes (r : Reader) (buffer : List Nat) :
    Except Error Unit × List Nat × Reader :=
  if r.data.length - r.offset < buffer.length then
    (Except.error Error.Overflow, buffer, r)
  else
    (Except.ok (), (r.data.drop r.offset).take buffer.length,
      { r with offset := r.offset + buffer.length })

/-- A `Decode` implementation, state-passing style:
`fn decode(reader: &mut Reader) -> Result<Self, Error>`. -/
abbrev DecodeFn (α : Type) := Reader → Except Error α × Reader

/-- `Reader::read::<T>(&mut self)`: delegates to `T::decode(self)`. -/
def Reader.read (r : Reader) (d : DecodeFn α) : Except Error α × Reader :=
  d r

/-- `Reader::read_at::<T>(&self, offset)`: rejects `offset >= data.len()`,
otherwise decodes on a transient `Reader { data, offset }`.  It takes
`&self`, so the caller's reader is returned unchanged in every case. -/
def Reader.read_at (r : Reader) (d : DecodeFn α) (offset : Nat) :
    Except Error α × Reader :=
  if r.data.length ≤ offset then
    (Except.error Error.Overflow, r)
  else
    (((Reader.mk r.data offset).read d).1, r)

/-- `Decode::decode_in_place(data)`: build a fresh `Reader` over `data`
and call `read` on it. -/
def decode_in_place (d : DecodeFn α) (data : List Nat) : Except Error α :=
  ((Reader.new data).read d).1

/-- Little-endian reassembly of a byte list into an unsigned value:
the first byte is least significant (`<$ty>::from_le_bytes`). -/
def from_le_bytes : List Nat → Nat
  | [] => 0
  | b :: bs => b + 256 * from_le_bytes bs

/-- Two's-complement reinterpretation of a `w`-byte unsigned value,
giving the signed meaning of `from_le_bytes` for the `i*` types. -/
def toSigned (w v : Nat) : Int :=
  if v < 2 ^ (8 * w - 1) then (v : Int) else (v : Int) - 2 ^ (8 * w)

/-- The `impl_decode_number!` body at an unsigned type of width `w`:
`let mut bytes = [0u8; w]; reader.read_bytes(&mut bytes)?;
Ok(from_le_bytes(bytes))`. -/
def decodeUN (w : Nat) : DecodeFn Nat := fun r =>
  match r.read_bytes (List.replicate w 0) with
  | (Except.ok _, bytes, r') => (Except.ok (from_le_bytes bytes), r')
  | (Except.error e, _, r') => (Except.error e, r')

/-- The `impl_decode_number!` body at a signed type of width `w`:
same bytes, reinterpreted in two's complement. -/
def decodeIN (w : Nat) : DecodeFn Int := fun r =>
  match decodeUN w r with
  | (Except.ok v, r') => (Except.ok (toSigned w v), r')
  | (Except.error e, r') => (Except.error e, r')

/-- `impl Decode for u8`. -/
def decodeU8 : DecodeFn Nat := decodeUN 1

/-- `impl Decode for u16`. -/
def decodeU16 : DecodeFn Nat := decodeUN 2

/-- `impl Decode for u32`. -/
def decodeU32 : DecodeFn Nat := decodeUN 4

/-- `impl Decode for u64`. -/
def decodeU64 : DecodeFn Nat := decodeUN 8

/-- `impl Decode for i8`. -/
def decodeI8 : DecodeFn Int := decodeIN 1

/-- `impl Decode for i16`. -/
def decodeI16 : DecodeFn Int := decodeIN 2

/-- `impl Decode for i32`. -/
def decodeI32 : DecodeFn Int := decodeIN 4

/-- `impl Decode for i64`. -/
def decodeI64 : DecodeFn Int := decodeIN 8

/-- `impl Decode for f32`, the value represented by its 32-bit pattern. -/
def decodeF32bits : DecodeFn Nat := decodeUN 4

/-- `impl Decode for f64`, the value represented by its 64-bit pattern. -/
def decodeF64bits : DecodeFn Nat := decodeUN 8

/-- The `impl_decode_array!` body for `[T; n]`: decode one element per
slot in ascending index order via `reader.read()?`, stopping at the
first failure (whose post-reader is propagated). -/
def decodeArray (d : DecodeFn α) : Nat → DecodeFn (List α)
  | 0 => fun r => (Except.ok [], r)
  | n + 1 => fun r =>
    match r.read d with
    | (Except.error e, r') => (Except.error e, r')
    | (Except.ok x, r') =>
      match decodeArray d n r' with
      | (Except.error e, r'') => (Except.error e, r'')
      | (Except.ok xs, r'') => (Except.ok (x :: xs), r'')

/-- The list of values a width-`w` reinterpretation `f` produces from
`n` consecutive `w`-byte groups of `data` starting at `o`. -/
def leList (f : List Nat → α) (data : List Nat) (o w : Nat) : Nat → List α
  | 0 => []
  | n + 1 => f ((data.drop o).take w) :: leList f data (o + w) w n

/-- `d` decodes a fixed width `w` by reinterpretation `f`: on enough
remaining bytes it returns `f` of the next `w` bytes and advances by
`w`; on too few it fails with `Overflow` leaving the reader unchanged. -/
def IsFixedWidth (d : DecodeFn α) (w : Nat) (f : List Nat → α) : Prop :=
  ∀ data o, o ≤ data.length →
    (o + w ≤ data.length →
      d (Reader.mk data o) =
        (Except.ok (f ((data.drop o).take w)), Reader.mk data (o + w))) ∧
    (data.length < o + w →
      d (Reader.mk data o) = (Except.error Error.Overflow, Reader.mk data o))

/-- `d` keeps the cursor within bounds and never touches the buffer. -/
def Preserves (d : DecodeFn α) : Prop :=
  ∀ r : Reader, r.offset ≤ r.data.length →
    (d r).2.offset ≤ (d r).2.data.length ∧ (d r).2.data = r.data

theorem read_bytes_ok (data buffer : List Nat) (o : Nat)
    (h : o + buffer.length ≤ data.length) :
    Reader.read_bytes (Reader.mk data o) buffer =
      (Except.ok (), (data.drop o).take buffer.length,
        Reader.mk data (o + buffer.length)) := by
  unfold Reader.read_bytes
  dsimp only
  rw [if_neg (by omega)]

theorem read_bytes_err (data buffer : List Nat) (o : Nat)
    (ho : o ≤ data.length) (h : data.length < o + buffer.length) :
    Reader.read_bytes (Reader.mk data o) buffer =
      (Except.error Error.Overflow, buffer, Reader.mk data o) := by
  unfold Reader.read_bytes
  dsimp only
  rw [if_pos (by omega)]

theorem decodeUN_ok (w : Nat) (data : List Nat) (o : Nat)
    (h : o + w ≤ data.length) :
    decodeUN w (Reader.mk data o) =
      (Except.ok (from_le_bytes ((data.drop o).take w)),
        Reader.mk data (o + w)) := by
  unfold decodeUN
  rw [read_bytes_ok data (List.replicate w 0) o (by simpa using h)]
  simp

theorem decodeUN_err (w : Nat) (data : List Nat) (o : Nat)
    (ho : o ≤ data.length) (h : data.length < o + w) :
    decodeUN w (Reader.mk data o) =
      (Except.error Error.Overflow, Reader.mk data o) := by
  unfold decodeUN
  rw [read_bytes_err data (List.replicate w 0) o ho (by simpa using h)]

theorem decodeIN_ok (w : Nat) (data : List Nat) (o : Nat)
    (h : o + w ≤ data.length) :
    decodeIN w (Reader.mk data o) =
      (Except.ok (toSigned w (from_le_bytes ((data.drop o).take w))),
        Reader.mk data (o + w)) := by
  unfold decodeIN
  rw [decodeUN_ok w data o h]

theorem decodeIN_err (w : Nat) (data : List Nat) (o : Nat)
    (ho : o ≤ data.length) (h : data.length < o + w) :
    decodeIN w (Reader.mk data o) =
      (Except.error Error.Overflow, Reader.mk data o) := by
  unfold decodeIN
  rw [decodeUN_err w data o ho h]

theorem isFixedWidth_decodeUN (w : Nat) :
    IsFixedWidth (decodeUN w) w from_le_bytes := by
  intro data o ho
  exact ⟨decodeUN_ok w data o, decodeUN_err w data o ho⟩

theorem isFixedWidth_decodeIN (w : Nat) :
    IsFixedWidth (decodeIN w) w (fun bs => toSigned w (from_le_bytes bs)) := by
  intro data o ho
  exact ⟨decodeIN_ok w data o, decodeIN_err w data o ho⟩

theorem decodeArray_succ_eq {α : Type} (d : DecodeFn α) (n : Nat) (r : Reader) :
    decodeArray d (n + 1) r =
      match d r with
      | (Except.error e, r') => (Except.error e, r')
      | (Except.ok x, r') =>
        match decodeArray d n r' with
        | (Except.error e, r'') => (Except.error e, r'')
        | (Except.ok xs, r'') => (Except.ok (x :: xs), r'') := rfl

theorem decodeArray_ok {α : Type} (d : DecodeFn α) (w : Nat) (f : List Nat → α)
    (hd : IsFixedWidth d w f) (n : Nat) :
    ∀ (data : List Nat) (o : Nat), o + n * w ≤ data.length →
      decodeArray d n (Reader.mk data o) =
        (Except.ok (leList f data o w n), Reader.mk data (o + n * w)) := by
  induction n with
  | zero =>
    intro data o h
    simp [decodeArray, leList]
  | succ n ih =>
    intro data o h
    have hsm : (n + 1) * w = n * w + w := Nat.succ_mul n w
    have hok := (hd data o (by omega)).1 (by omega)
    have hih := ih data (o + w) (by omega)
    have harith : o + w + n * w = o + (n + 1) * w := by omega
    rw [harith] at hih
    rw [decodeArray_succ_eq]
    simp only [hok]
    rw [hih]
    simp [leList]

theorem decodeArray_short {α : Type} (d : DecodeFn α) (w : Nat) (f : List Nat → α)
    (hd : IsFixedWidth d w f) (hw : 1 ≤ w) (n : Nat) :
    ∀ (data : List Nat) (o : Nat), data.length + 1 = o + (n + 1) * w →
      decodeArray d (n + 1) (Reader.mk data o) =
        (Except.error Error.Overflow, Reader.mk data (o + n * w)) := by
  induction n with
  | zero =>
    intro data o h
    have h1 : (0 + 1) * w = w := by ring
    have herr := (hd data o (by omega)).2 (by omega)
    rw [decodeArray_succ_eq, herr]
    simp
  | succ n ih =>
    intro data o h
    have hsm : (n + 1 + 1) * w = (n + 1) * w + w := Nat.succ_mul (n + 1) w
    have hsm2 : (n + 1) * w = n * w + w := Nat.succ_mul n w
    have hok := (hd data o (by omega)).1 (by omega)
    have hih := ih data (o + w) (by omega)
    have harith : o + w + n * w = o + (n + 1) * w := by omega
    rw [harith] at hih
    rw [decodeArray_succ_eq]
    simp only [hok]
    rw [hih]

theorem preserves_decodeUN (w : Nat) : Preserves (decodeUN w) := by
  intro r h
  obtain ⟨data, o⟩ := r
  dsimp only at h ⊢
  by_cases hc : o + w ≤ data.length
  · rw [decodeUN_ok w data o hc]
    exact ⟨hc, rfl⟩
  · rw [decodeUN_err w data o h (by omega)]
    exact ⟨h, rfl⟩

theorem preserves_decodeIN (w : Nat) : Preserves (decodeIN w) := by
  intro r h
  obtain ⟨data, o⟩ := r
  dsimp only at h ⊢
  by_cases hc : o + w ≤ data.length
  · rw [decodeIN_ok w data o hc]
    exact ⟨hc, rfl⟩
  · rw [decodeIN_err w data o h (by omega)]
    exact ⟨h, rfl⟩

theorem preserves_decodeArray {α : Type} (d : DecodeFn α) (hp : Preserves d) :
    ∀ n, Preserves (decodeArray d n) := by
  intro n
  induction n with
  | zero =>
    intro r h
    exact ⟨h, rfl⟩
  | succ n ih =>
    intro r h
    have hp1 := hp r h
    rw [decodeArray_succ_eq]
    rcases hd : d r with ⟨res, r'⟩
    rw [hd] at hp1
    cases res with
    | error e => exact hp1
    | ok x =>
      have ih1 := ih r' hp1.1
      rcases ha : decodeArray d n r' with ⟨res2, r''⟩
      rw [ha] at ih1
      cases res2 with
      | error e =>
        simp only [ha]
        exact ⟨ih1.1, ih1.2.trans hp1.2⟩
      | ok xs =>
        simp only [ha]
        exact ⟨ih1.1, ih1.2.trans hp1.2⟩

theorem leList_length {α : Type} (f : List Nat → α) (data : List Nat) (w : Nat) :
    ∀ (n : Nat) (o : Nat), (leList f data o w n).length = n := by
  intro n
  induction n with
  | zero => intro o; rfl
  | succ n ih =>
    intro o
    simp [leList, ih (o + w)]

theorem leList_getElem {α : Type} (f : List Nat → α) (data : List Nat) (w : Nat) :
    ∀ (n : Nat) (o i : Nat), i < n →
      (leList f data o w n)[i]? = some (f ((data.drop (o + i * w)).take w)) := by
  intro n
  induction n with
  | zero => intro o i h; omega
  | succ n ih =>
    intro o i h
    cases i with
    | zero => simp [leList]
    | succ i =>
      have hrec := ih (o + w) i (by omega)
      have harith : o + w + i * w = o + (i + 1) * w := by ring
      rw [harith] at hrec
      simpa [leList] using hrec

/-- C1: `Reader::read_bytes` with a destination of length `K` and cursor
`o ≤ L` succeeds exactly when `K ≤ L - o`, in which case the destination
is overwritten with the `K` buffer bytes starting at `o` and the offset
becomes `o + K`; when `K > L - o` it fails with `Overflow`, the offset is
unchanged, and the destination is not written at all. -/
theorem C1_read_bytes_correct (data buffer : List Nat) (o : Nat)
    (ho : o ≤ data.length) :
    (buffer.length ≤ data.length - o →
      Reader.read_bytes (Reader.mk data o) buffer =
        (Except.ok (), (data.drop o).take buffer.length,
          Reader.mk data (o + buffer.length)) ∧
      ((data.drop o).take buffer.length).length = buffer.length ∧
      ∀ i, i < buffer.length →
        ((data.drop o).take buffer.length)[i]? = data[o + i]?) ∧
    (data.length - o < buffer.length →
      Reader.read_bytes (Reader.mk data o) buffer =
        (Except.error Error.Overflow, buffer, Reader.mk data o)) := by
  constructor
  · intro hK
    refine ⟨read_bytes_ok data buffer o (by omega), ?_, ?_⟩
    · simp only [List.length_take, List.length_drop]
      omega
    · intro i hi
      rw [List.getElem?_take_of_lt hi, List.getElem?_drop]
  · intro hK
    exact read_bytes_err data buffer o ho (by omega)

/-- C1 witness: on buffer `[1,2,3]` at offset 1, a 2-byte read succeeds
with bytes `[2,3]` and offset 3, and a 3-byte read fails with `Overflow`
leaving destination and offset unchanged. -/
theorem C1_witness :
    Reader.read_bytes (Reader.mk [1, 2, 3] 1) [0, 0] =
      (Except.ok (), [2, 3], Reader.mk [1, 2, 3] 3) ∧
    Reader.read_bytes (Reader.mk [1, 2, 3] 1) [0, 0, 0] =
      (Except.error Error.Overflow, [0, 0, 0], Reader.mk [1, 2, 3] 1) := by
  have h1 := C1_read_bytes_correct [1, 2, 3] [0, 0] 1 (by decide)
  have h2 := C1_read_bytes_correct [1, 2, 3] [0, 0, 0] 1 (by decide)
  exact ⟨by simpa using (h1.1 (by decide)).1, by simpa using h2.2 (by decide)⟩

/-- C2: a numeric decode of width `w` reads exactly `w` bytes at the
cursor, advances the cursor by `w`, and interprets the bytes in
little-endian order (two's complement for the signed types); concretely
`[0x01,0,0,0]` decodes as `u32` to 1 and `[0xFF,0xFF]` as `i16` to -1. -/
theorem C2_decode_number_le (w : Nat) (data : List Nat) (o : Nat)
    (h : o + w ≤ data.length) :
    decodeUN w (Reader.mk data o) =
      (Except.ok (from_le_bytes ((data.drop o).take w)),
        Reader.mk data (o + w)) ∧
    decodeIN w (Reader.mk data o) =
      (Except.ok (toSigned w (from_le_bytes ((data.drop o).take w))),
        Reader.mk data (o + w)) ∧
    decodeU32 (Reader.new [1, 0, 0, 0]) =
      (Except.ok 1, Reader.mk [1, 0, 0, 0] 4) ∧
    decodeI16 (Reader.new [255, 255]) =
      (Except.ok (-1), Reader.mk [255, 255] 2) :=
  ⟨decodeUN_ok w data o h, decodeIN_ok w data o h, rfl, rfl⟩

/-- C2 witness: the width-2 unsigned decode of `[1,2]` at offset 0
yields `513 = 1 + 256*2` and offset 2; plus the two concrete scenarios. -/
theorem C2_witness :
    decodeUN 2 (Reader.mk [1, 2] 0) = (Except.ok 513, Reader.mk [1, 2] 2) ∧
    decodeU32 (Reader.new [1, 0, 0, 0]) =
      (Except.ok 1, Reader.mk [1, 0, 0, 0] 4) ∧
    decodeI16 (Reader.new [255, 255]) =
      (Except.ok (-1), Reader.mk [255, 255] 2) := by
  have h := C2_decode_number_le 2 [1, 2] 0 (by decide)
  exact ⟨by simpa using h.1, h.2.2.1, h.2.2.2⟩

/-- C3: for `1 ≤ N ≤ 32` and any fixed-width decodable element, the
`[T; N]` decode on a buffer holding exactly `N` elements past the cursor
succeeds with the elements in ascending index order, each the element's
individual decode at its position; on a buffer one byte short it fails
with `Overflow` on the last element, the cursor reflecting consumption
of exactly the first `N - 1` elements. -/
theorem C3_decode_array (N w : Nat) {α : Type} (d : DecodeFn α)
    (f : List Nat → α) (hN1 : 1 ≤ N) (hN32 : N ≤ 32) (hw : 1 ≤ w)
    (hd : IsFixedWidth d w f) :
    (∀ (data : List Nat) (o : Nat), o + N * w ≤ data.length →
      decodeArray d N (Reader.mk data o) =
        (Except.ok (leList f data o w N), Reader.mk data (o + N * w)) ∧
      (leList f data o w N).length = N ∧
      ∀ i, i < N →
        (d (Reader.mk data (o + i * w))).1 =
          Except.ok (f ((data.drop (o + i * w)).take w)) ∧
        (leList f data o w N)[i]? =
          some (f ((data.drop (o + i * w)).take w))) ∧
    (∀ (data : List Nat) (o : Nat), data.length + 1 = o + N * w →
      decodeArray d N (Reader.mk data o) =
        (Except.error Error.Overflow, Reader.mk data (o + (N - 1) * w))) := by
  constructor
  · intro data o h
    refine ⟨decodeArray_ok d w f hd N data o h, leList_length f data w N o, ?_⟩
    intro i hi
    have hmul : (i + 1) * w ≤ N * w := Nat.mul_le_mul_right w (by omega)
    have hsm : (i + 1) * w = i * w + w := Nat.succ_mul i w
    have hb : o + i * w + w ≤ data.length := by omega
    refine ⟨?_, leList_getElem f data w N o i hi⟩
    rw [(hd data (o + i * w) (by omega)).1 hb]
  · intro data o h
    obtain ⟨m, rfl⟩ : ∃ m, N = m + 1 := ⟨N - 1, by omega⟩
    simpa using decodeArray_short d w f hd hw m data o h

/-- C3 witness: decoding `[u8; 2]` from `[7, 9]` yields `[7, 9]` with the
cursor at 2; from the one-byte-short `[7]` it fails with `Overflow` with
the cursor at 1, after the single complete element. -/
theorem C3_witness :
    decodeArray (decodeUN 1) 2 (Reader.mk [7, 9] 0) =
      (Except.ok [7, 9], Reader.mk [7, 9] 2) ∧
    decodeArray (decodeUN 1) 2 (Reader.mk [7] 0) =
      (Except.error Error.Overflow, Reader.mk [7] 1) := by
  have h := C3_decode_array 2 1 (decodeUN 1) from_le_bytes (by decide)
    (by decide) (by decide) (isFixedWidth_decodeUN 1)
  have h1 := (h.1 [7, 9] 0 (by decide)).1
  have h2 := h.2 [7] 0 (by decide)
  constructor
  · rw [h1]
    rfl
  · simpa using h2

/-- C4: `Reader::read_at` fails with `Overflow` for every offset at or
past the end of the buffer, whatever the decoded type, the caller's
reader being returned untouched; and at offset `len - 1` a numeric type
of width at least 2 also fails with `Overflow`. -/
theorem C4_read_at_bounds :
    (∀ (α : Type) (d : DecodeFn α) (r : Reader) (off : Nat),
      r.data.length ≤ off →
      r.read_at d off = (Except.error Error.Overflow, r)) ∧
    (∀ (w : Nat) (data : List Nat), 2 ≤ w → 1 ≤ data.length →
      (Reader.new data).read_at (decodeUN w) (data.length - 1) =
        (Except.error Error.Overflow, Reader.new data)) := by
  constructor
  · intro α d r off h
    unfold Reader.read_at
    rw [if_pos h]
  · intro w data hw hlen
    have herr := decodeUN_err w data (data.length - 1) (by omega) (by omega)
    unfold Reader.read_at Reader.read Reader.new
    dsimp only
    rw [if_neg (by omega), herr]

/-- C4 witness: `read_at` on `[3]` at offset 5 fails with `Overflow` for
the `u8` decode, and at offset 0 (which is `len - 1`) the 2-byte decode
also fails with `Overflow`, both leaving the caller's reader intact. -/
theorem C4_witness :
    (Reader.mk [3] 0).read_at decodeU8 5 =
      (Except.error Error.Overflow, Reader.mk [3] 0) ∧
    (Reader.new [3]).read_at (decodeUN 2) 0 =
      (Except.error Error.Overflow, Reader.new [3]) := by
  have h := C4_read_at_bounds
  exact ⟨h.1 Nat decodeU8 (Reader.mk [3] 0) 5 (by decide),
    by simpa using h.2 2 [3] (by decide) (by decide)⟩

/-- C5: `Reader::read_at` never changes the calling reader's cursor,
whether it succeeds or fails, and within bounds its result is that of
the type's decode run on a transient reader seeded at the requested
offset over the same buffer. -/
theorem C5_read_at_frame {α : Type} (d : DecodeFn α) (r : Reader)
    (off : Nat) :
    (r.read_at d off).2 = r ∧
    (off < r.data.length →
      (r.read_at d off).1 = (d (Reader.mk r.data off)).1) := by
  constructor
  · unfold Reader.read_at
    by_cases h : r.data.length ≤ off
    · rw [if_pos h]
    · rw [if_neg h]
  · intro h
    unfold Reader.read_at
    rw [if_neg (by omega)]
    rfl

/-- C5 witness: reading a `u8` at offset 1 of `[1,2]` leaves the caller's
reader at offset 0 and equals the decode on a transient reader at 1. -/
theorem C5_witness :
    ((Reader.mk [1, 2] 0).read_at decodeU8 1).2 = Reader.mk [1, 2] 0 ∧
    ((Reader.mk [1, 2] 0).read_at decodeU8 1).1 =
      (decodeU8 (Reader.mk [1, 2] 1)).1 := by
  have h := C5_read_at_frame decodeU8 (Reader.mk [1, 2] 0) 1
  exact ⟨h.1, h.2 (by decide)⟩

/-- C6 counterexample: the claim that no library `Decode` implementation
leaves the `Reader` partially advanced on failure is false: decoding
`[u8; 2]` from the one-byte buffer `[5]` fails with `Overflow` after the
first element succeeded, leaving the cursor at 1, not at its original 0. -/
theorem C6_counterexample :
    decodeArray decodeU8 2 (Reader.mk [5] 0) =
      (Except.error Error.Overflow, Reader.mk [5] 1) ∧
    (decodeArray decodeU8 2 (Reader.mk [5] 0)).2.offset ≠
      (Reader.mk [5] 0).offset := by
  constructor
  · rfl
  · intro h
    simp only [show decodeArray decodeU8 2 (Reader.mk [5] 0) =
      (Except.error Error.Overflow, Reader.mk [5] 1) from rfl] at h
    exact absurd h (by decide)

/-- C6 amended: every numeric decode consumes exactly its width on
success and leaves the `Reader` wholly unchanged on failure; an array
decode of `n` fixed-width elements consumes exactly `n` element widths
on success, while on failure its cursor may reflect the complete
elements decoded before the failing one (each constituent `read_bytes`
itself never partially advances). -/
theorem C6_exact_width :
    (∀ (w : Nat) (data : List Nat) (o : Nat), o + w ≤ data.length →
      (decodeUN w (Reader.mk data o)).2 = Reader.mk data (o + w)) ∧
    (∀ (w : Nat) (data : List Nat) (o : Nat), o ≤ data.length →
      data.length < o + w →
      decodeUN w (Reader.mk data o) =
        (Except.error Error.Overflow, Reader.mk data o)) ∧
    (∀ (w : Nat) (data : List Nat) (o : Nat), o + w ≤ data.length →
      (decodeIN w (Reader.mk data o)).2 = Reader.mk data (o + w)) ∧
    (∀ (w : Nat) (data : List Nat) (o : Nat), o ≤ data.length →
      data.length < o + w →
      decodeIN w (Reader.mk data o) =
        (Except.error Error.Overflow, Reader.mk data o)) ∧
    (∀ (α : Type) (d : DecodeFn α) (w : Nat) (f : List Nat → α)
      (n : Nat) (data : List Nat) (o : Nat), IsFixedWidth d w f →
      o + n * w ≤ data.length →
      (decodeArray d n (Reader.mk data o)).2 = Reader.mk data (o + n * w)) := by
  refine ⟨?_, decodeUN_err, ?_, decodeIN_err, ?_⟩
  · intro w data o h
    rw [decodeUN_ok w data o h]
  · intro w data o h
    rw [decodeIN_ok w data o h]
  · intro α d w f n data o hd h
    rw [decodeArray_ok d w f hd n data o h]

/-- C6 witness: the 2-byte decode of `[1,2]` ends at offset 2; on `[1]`
it fails leaving offset 0; `[u8; 2]` on `[1,2]` ends at offset 2. -/
theorem C6_witness :
    (decodeUN 2 (Reader.mk [1, 2] 0)).2 = Reader.mk [1, 2] 2 ∧
    decodeUN 2 (Reader.mk [1] 0) =
      (Except.error Error.Overflow, Reader.mk [1] 0) ∧
    (decodeArray (decodeUN 1) 2 (Reader.mk [1, 2] 0)).2 =
      Reader.mk [1, 2] 2 := by
  have h := C6_exact_width
  refine ⟨by simpa using h.1 2 [1, 2] 0 (by decide),
    h.2.1 2 [1] 0 (by decide) (by decide), ?_⟩
  have h5 := h.2.2.2.2 Nat (decodeUN 1) 1 from_le_bytes 2 [1, 2] 0
    (isFixedWidth_decodeUN 1) (by decide)
  simpa using h5

/-- C7: over an empty buffer, each of the ten numeric primitive decodes
fails with `Overflow` and leaves the reader at offset 0. -/
theorem C7_empty_buffer :
    decodeU8 (Reader.new []) = (Except.error Error.Overflow, Reader.new []) ∧
    decodeU16 (Reader.new []) = (Except.error Error.Overflow, Reader.new []) ∧
    decodeU32 (Reader.new []) = (Except.error Error.Overflow, Reader.new []) ∧
    decodeU64 (Reader.new []) = (Except.error Error.Overflow, Reader.new []) ∧
    decodeI8 (Reader.new []) = (Except.error Error.Overflow, Reader.new []) ∧
    decodeI16 (Reader.new []) = (Except.error Error.Overflow, Reader.new []) ∧
    decodeI32 (Reader.new []) = (Except.error Error.Overflow, Reader.new []) ∧
    decodeI64 (Reader.new []) = (Except.error Error.Overflow, Reader.new []) ∧
    decodeF32bits (Reader.new []) =
      (Except.error Error.Overflow, Reader.new []) ∧
    decodeF64bits (Reader.new []) =
      (Except.error Error.Overflow, Reader.new []) :=
  ⟨rfl, rfl, rfl, rfl, rfl, rfl, rfl, rfl, rfl, rfl⟩

/-- C8: a fresh reader starts at offset 0 over its buffer; `read_bytes`
keeps `offset ≤ len` and the buffer intact whether it succeeds or fails;
`read_at` returns the caller's reader unchanged; and the library decode
implementations (numeric and array, hence `read` at those types) all
preserve `offset ≤ len` and the buffer. -/
theorem C8_invariant :
    (∀ data : List Nat, (Reader.new data).offset = 0 ∧
      (Reader.new data).offset ≤ data.length ∧
      (Reader.new data).data = data) ∧
    (∀ (data buffer : List Nat) (o : Nat), o ≤ data.length →
      ((Reader.mk data o).read_bytes buffer).2.2.data = data ∧
      ((Reader.mk data o).read_bytes buffer).2.2.offset ≤ data.length) ∧
    (∀ (α : Type) (d : DecodeFn α) (r : Reader) (off : Nat),
      (r.read_at d off).2 = r) ∧
    (∀ w : Nat, Preserves (decodeUN w)) ∧
    (∀ w : Nat, Preserves (decodeIN w)) ∧
    (∀ (α : Type) (d : DecodeFn α) (n : Nat), Preserves d →
      Preserves (decodeArray d n)) := by
  refine ⟨fun data => ⟨rfl, Nat.zero_le _, rfl⟩, ?_, ?_, preserves_decodeUN,
    preserves_decodeIN, fun α d n hp => preserves_decodeArray d hp n⟩
  · intro data buffer o h
    unfold Reader.read_bytes
    dsimp only
    by_cases hc : data.length - o < buffer.length
    · rw [if_pos hc]
      exact ⟨rfl, h⟩
    · rw [if_neg hc]
      refine ⟨rfl, ?_⟩
      show o + buffer.length ≤ data.length
      omega
  · intro α d r off
    unfold Reader.read_at
    by_cases hc : r.data.length ≤ off
    · rw [if_pos hc]
    · rw [if_neg hc]

/-- C8 witness: concrete instances of the invariant after `read_bytes`
(both arms), `read_at`, and an array decode that fails mid-way. -/
theorem C8_witness :
    ((Reader.mk [1, 2] 1).read_bytes [0]).2.2.data = [1, 2] ∧
    ((Reader.mk [1, 2] 1).read_bytes [0]).2.2.offset ≤ 2 ∧
    ((Reader.mk [1, 2] 1).read_at decodeU8 9).2 = Reader.mk [1, 2] 1 ∧
    (decodeArray decodeU8 2 (Reader.mk [1] 0)).2.offset ≤
      (decodeArray decodeU8 2 (Reader.mk [1] 0)).2.data.length ∧
    (decodeArray decodeU8 2 (Reader.mk [1] 0)).2.data = [1] := by
  have h := C8_invariant
  have hb := h.2.1 [1, 2] [0] 1 (by decide)
  have ha := h.2.2.2.2.2 Nat decodeU8 2 (preserves_decodeUN 1)
    (Reader.mk [1] 0) (by decide)
  exact ⟨hb.1, hb.2, h.2.2.1 Nat decodeU8 (Reader.mk [1, 2] 1) 9,
    ha.1, ha.2⟩

/-- C9: a zero-length `read_bytes` succeeds and leaves the cursor where
it was for every in-bounds reader state, offset equal to the buffer
length included; `read_at` by contrast rejects offset `len(buffer)`
unconditionally with `Overflow`. -/
theorem C9_zero_length_read :
    (∀ (data : List Nat) (o : Nat), o ≤ data.length →
      (Reader.mk data o).read_bytes [] =
        (Except.ok (), [], Reader.mk data o)) ∧
    (∀ (α : Type) (d : DecodeFn α) (r : Reader),
      r.read_at d r.data.length = (Except.error Error.Overflow, r)) := by
  constructor
  · intro data o h
    simpa using read_bytes_ok data [] o (by simpa using h)
  · intro α d r
    unfold Reader.read_at
    rw [if_pos (le_refl _)]

/-- C9 witness: the zero-length read succeeds on the empty buffer and at
end of buffer, while `read_at` at the buffer length fails. -/
theorem C9_witness :
    (Reader.mk [] 0).read_bytes [] = (Except.ok (), [], Reader.mk [] 0) ∧
    (Reader.mk [1] 1).read_bytes [] = (Except.ok (), [], Reader.mk [1] 1) ∧
    (Reader.mk [1] 0).read_at decodeU8 1 =
      (Except.error Error.Overflow, Reader.mk [1] 0) := by
  have h := C9_zero_length_read
  exact ⟨h.1 [] 0 (by decide), h.1 [1] 1 (by decide),
    h.2 Nat decodeU8 (Reader.mk [1] 0)⟩

/-- C10: for every decode implementation and every buffer,
`decode_in_place` coincides with constructing a fresh `Reader` over the
buffer and calling `read` on it, equivalently with running the decode on
a reader seeded at offset 0. -/
theorem C10_decode_in_place_equiv {α : Type} (d : DecodeFn α)
    (data : List Nat) :
    decode_in_place d data = ((Reader.new data).read d).1 ∧
    decode_in_place d data = (d (Reader.mk data 0)).1 :=
  ⟨rfl, rfl⟩
